import Mathlib

/-!
# Verification of the plan-synthesis / wall-application pipeline

A shallow embedding, in Lean 4, of the core of the "idea wall" repository:

* `src/lib/clearAiNotes.ts` (concatenated module; its `AISummary.tsx` part holds
  the heuristic transcript-to-task deriver and the Gemini-task conversion, and
  its `aiOutputs.ts` part holds the canonical `normalizeAIOutput` normalizer);
* `src/lib/planApply.ts` (the wall applier) together with the localStorage data
  layer `src/lib/db.ts` it writes through.

JavaScript-level conventions of the embedding:

* strings are Lean `String`s (all inputs of interest are ASCII; `toLowerCase`
  is embedded as an ASCII lowering, and the `\s` regex class as the common
  whitespace characters);
* dynamic JS values reaching `normalizeAIOutput` are modelled by the inductive
  `JVal` (numbers as integers — no floating point is exercised by the
  normalizer paths under study);
* `crypto.randomUUID()` document ids are abstracted as sequence numbers (the
  spec itself states "ids may differ"); localStorage writes become explicit
  state passing (`WallState`);
* `Array.prototype.sort` with the comparator `(a,b) => a.prio - b.prio` is a
  stable sort by `prio` (ES2019 guarantees stability), embedded as
  `List.mergeSort`;
* JS exceptions (`throw new Error`) become `Except String`.
-/

namespace IdeaWall

/-! ## JS string primitives -/

/-- The whitespace characters recognized by the embedding of the regex class
`\s` and of `String.prototype.trim`. -/
def isWS (c : Char) : Bool :=
  c == ' ' || c == '\t' || c == '\n' || c == '\r' || c == '\x0b' || c == '\x0c'

/-- ASCII lowering of one character (embeds `toLowerCase` on the ASCII inputs
the pipeline handles). -/
def lowerChar (c : Char) : Char :=
  if 65 ≤ c.toNat ∧ c.toNat ≤ 90 then Char.ofNat (c.toNat + 32) else c

/-- Embeds `String.prototype.toLowerCase`, ASCII fragment. -/
def jsToLower (s : String) : String := ⟨s.data.map lowerChar⟩

/-- Strip leading whitespace (char-list level). -/
def trimLeftL (l : List Char) : List Char := l.dropWhile isWS

/-- Strip trailing whitespace (char-list level). -/
def trimRightL (l : List Char) : List Char := (l.reverse.dropWhile isWS).reverse

/-- Embeds `String.prototype.trim` on char lists: leading and trailing whitespace
removed. -/
def jsTrimL (l : List Char) : List Char := trimRightL (trimLeftL l)

/-- Embeds `String.prototype.trim`. -/
def jsTrim (s : String) : String := ⟨jsTrimL s.data⟩

theorem head?_dropWhile_false (p : Char → Bool) :
    ∀ (l : List Char) (c : Char), (l.dropWhile p).head? = some c → p c = false := by
  intro l
  induction l with
  | nil => intro c h; simp [List.dropWhile] at h
  | cons a t ih =>
    intro c h
    by_cases hpa : p a
    · rw [List.dropWhile_cons_of_pos hpa] at h
      exact ih c h
    · rw [List.dropWhile_cons_of_neg hpa] at h
      simp at h
      rw [← h]
      exact Bool.of_not_eq_true hpa

theorem dropWhile_eq_self_of_head (p : Char → Bool) (l : List Char)
    (h : ∀ c, l.head? = some c → p c = false) : l.dropWhile p = l := by
  cases l with
  | nil => rfl
  | cons a t =>
    have : p a = false := h a rfl
    simp [List.dropWhile_cons, this]

theorem dropWhile_dropWhile (p : Char → Bool) (l : List Char) :
    (l.dropWhile p).dropWhile p = l.dropWhile p :=
  dropWhile_eq_self_of_head p _ (head?_dropWhile_false p l)

/-- The list `trimRightL l` is a prefix of `l`. -/
theorem trimRightL_append (l : List Char) : ∃ t, trimRightL l ++ t = l := by
  refine ⟨(l.reverse.takeWhile isWS).reverse, ?_⟩
  rw [trimRightL, ← List.reverse_append, List.takeWhile_append_dropWhile, List.reverse_reverse]

theorem head?_trimRightL (l : List Char) (c : Char) (h : (trimRightL l).head? = some c) :
    l.head? = some c := by
  obtain ⟨t, ht⟩ := trimRightL_append l
  rw [← ht]
  cases hr : trimRightL l with
  | nil => rw [hr] at h; simp at h
  | cons a u => rw [hr] at h; simp at h; simp [h]

theorem trimLeftL_trimRightL_trimLeftL (l : List Char) :
    trimLeftL (trimRightL (trimLeftL l)) = trimRightL (trimLeftL l) := by
  apply dropWhile_eq_self_of_head
  intro c h
  exact head?_dropWhile_false isWS l c (head?_trimRightL _ c h)

theorem trimRightL_trimRightL (l : List Char) :
    trimRightL (trimRightL l) = trimRightL l := by
  unfold trimRightL
  rw [List.reverse_reverse, dropWhile_dropWhile]

theorem jsTrimL_idem (l : List Char) : jsTrimL (jsTrimL l) = jsTrimL l := by
  unfold jsTrimL
  rw [trimLeftL_trimRightL_trimLeftL, trimRightL_trimRightL]

theorem jsTrim_idem (s : String) : jsTrim (jsTrim s) = jsTrim s := by
  unfold jsTrim
  exact congrArg String.mk (jsTrimL_idem s.data)

/-! Substring matching (embedding of `String.prototype.includes` and of the
word-bounded regex patterns; every needle used below starts and ends with a
regex word character, so `\b` reduces to "the adjacent char, if any, is not a
word character"). -/

/-- Try to match `w` literally at the head of `l`; on success return the
remainder. -/
def dropMatch : List Char → List Char → Option (List Char)
  | [], rest => some rest
  | _ :: _, [] => none
  | a :: as, b :: bs => if a == b then dropMatch as bs else none

/-- Case-insensitive variant of `dropMatch` (for the `i`-flagged split regex of
the deriver). -/
def dropMatchCI : List Char → List Char → Option (List Char)
  | [], rest => some rest
  | _ :: _, [] => none
  | a :: as, b :: bs => if lowerChar a == lowerChar b then dropMatchCI as bs else none

/-- Embeds `hay.includes(needle)` (char-list level). -/
def containsSubL (needle : List Char) : List Char → Bool
  | [] => (dropMatch needle []).isSome
  | l@(_ :: t) => (dropMatch needle l).isSome || containsSubL needle t

/-- Embeds `hay.includes(needle)`. -/
def containsSub (hay needle : String) : Bool := containsSubL needle.data hay.data

/-- The regex word-character class `\w` = `[A-Za-z0-9_]`. -/
def wordChar (c : Char) : Bool :=
  ('a' ≤ c && c ≤ 'z') || ('A' ≤ c && c ≤ 'Z') || ('0' ≤ c && c ≤ '9') || c == '_'

/-- A `\b` boundary next to a word character of the needle: the neighbouring
char (if any) must not be a word character. -/
def boundaryOk : Option Char → Bool
  | none => true
  | some c => !wordChar c

/-- Scan for a word-bounded occurrence of `w`; `prev` is the char preceding the
current position. -/
def wbFrom (w : List Char) : Option Char → List Char → Bool
  | prev, [] =>
    boundaryOk prev &&
      (match dropMatch w [] with
       | some rest => boundaryOk rest.head?
       | none => false)
  | prev, c :: t =>
    (boundaryOk prev &&
      (match dropMatch w (c :: t) with
       | some rest => boundaryOk rest.head?
       | none => false))
    || wbFrom w (some c) t

/-- The regex `\bneedle\b` tested against `hay` (needle starting/ending in word chars). -/
def wbContains (hay needle : String) : Bool := wbFrom needle.data none hay.data

/-- The regex `^needle\b` tested against `hay`. -/
def startsWordBounded (hay needle : String) : Bool :=
  match dropMatch needle.data hay.data with
  | some rest => boundaryOk rest.head?
  | none => false

/-! ## Heuristic fallback deriver (`AISummary.tsx` part of `clearAiNotes.ts`) -/

/-- Embeds `DerivedTask` of `AISummary.tsx`; `id` abstracts `crypto.randomUUID()` as a
sequence number. -/
inductive Lane where
  | Frontend
  | Backend
deriving DecidableEq, Repr

structure DerivedTask where
  id : Nat
  title : String
  lane : Lane
  prio : Nat
deriving DecidableEq, Repr

def FE_HINTS : List String :=
  ["ui", "ux", "front", "frontend", "webxr", "ar", "three", "three.js", "scene", "canvas",
   "2d", "3d", "mesh", "button", "panel", "drag",
   "vote", "sticky", "note", "overlay", "render", "shader", "camera", "raycast"]

def BE_HINTS : List String :=
  ["back", "backend", "api", "storage", "auth", "stt", "asr", "whisper", "gemini", "llm",
   "summary", "plan", "export", "persistence", "socket", "server", "schema", "index", "worker"]

def P0_HINTS : List String := ["p0", "blocker", "critical", "must", "urgent", "asap", "now", "immediately"]

def P1_HINTS : List String := ["p1", "important", "high", "next", "soon"]

/-- Embeds `detectPriority` of `AISummary.tsx`: substring scan over the lowercased
line. -/
def detectPriority (s : String) : Nat :=
  let t := jsToLower s
  if P0_HINTS.any (fun k => containsSub t k) then 0
  else if P1_HINTS.any (fun k => containsSub t k) then 1
  else 2

/-- Embeds `detectLane` of `AISummary.tsx`. -/
def detectLane (s : String) : Lane :=
  let t := jsToLower s
  let fe := FE_HINTS.any (fun k => containsSub t k)
  let be := BE_HINTS.any (fun k => containsSub t k)
  if fe && !be then .Frontend
  else if be && !fe then .Backend
  else if containsSub t "transcript" || containsSub t "summary" || containsSub t "plan" then .Backend
  else .Frontend

/-- Embeds `text.replace(/\s+/g, " ")`: collapse every whitespace run into one space
(`inRun` records whether the previous char was part of a run already replaced). -/
def collapseWSAux (inRun : Bool) : List Char → List Char
  | [] => []
  | c :: t =>
    if isWS c then
      if inRun then collapseWSAux true t
      else ' ' :: collapseWSAux true t
    else c :: collapseWSAux false t

def collapseWS (l : List Char) : List Char := collapseWSAux false l

/-- Split a collapsed text at each space preceded by `.`, `!` or `?`
(the lookbehind split `/(?<=[.!?])\s+/`); `cur` is the reversed current
piece. -/
def splitSentAux (cur : List Char) : List Char → List (List Char)
  | [] => [cur.reverse]
  | c :: t =>
    if c == ' ' then
      match cur with
      | p :: _ =>
        if p == '.' || p == '!' || p == '?' then cur.reverse :: splitSentAux [] t
        else splitSentAux (c :: cur) t
      | [] => splitSentAux (c :: cur) t
    else splitSentAux (c :: cur) t

/-- Embeds `splitSentences` of `AISummary.tsx`. -/
def splitSentences (text : String) : List String :=
  (((splitSentAux [] (collapseWS text.data)).map (fun l => jsTrim ⟨l⟩)).filter (· ≠ ""))

/-- The regex `\s+` at the head of the list (greedy). -/
def dropWSPlus (l : List Char) : Option (List Char) :=
  match l with
  | c :: t => if isWS c then some (t.dropWhile isWS) else none
  | [] => none

/-- One alternative of the clause-split regex `/;\s+|, then\s+| then\s+| and
then\s+/i` matched at the current position (alternation order as written). -/
def matchSep (l : List Char) : Option (List Char) :=
  ((dropMatchCI ";".data l).bind dropWSPlus) <|>
  ((dropMatchCI ", then".data l).bind dropWSPlus) <|>
  ((dropMatchCI " then".data l).bind dropWSPlus) <|>
  ((dropMatchCI " and then".data l).bind dropWSPlus)

theorem dropMatchCI_length :
    ∀ (w l r : List Char), dropMatchCI w l = some r → r.length ≤ l.length := by
  intro w
  induction w with
  | nil => intro l r h; simp [dropMatchCI] at h; simp [h]
  | cons a as ih =>
    intro l r h
    cases l with
    | nil => simp [dropMatchCI] at h
    | cons b bs =>
      by_cases hab : lowerChar a == lowerChar b
      · simp [dropMatchCI, hab] at h
        have := ih bs r h
        simp
        omega
      · simp [dropMatchCI, hab] at h

theorem dropWSPlus_length (l r : List Char) (h : dropWSPlus l = some r) :
    r.length < l.length := by
  cases l with
  | nil => simp [dropWSPlus] at h
  | cons c t =>
    by_cases hc : isWS c
    · simp [dropWSPlus, hc] at h
      have := (List.dropWhile_sublist isWS (l := t)).length_le
      simp [← h]
      omega
    · simp [dropWSPlus, hc] at h

theorem matchSep_length (l r : List Char) (h : matchSep l = some r) : r.length < l.length := by
  unfold matchSep at h
  rcases h1 : (dropMatchCI ";".data l).bind dropWSPlus with _ | r1
  · rcases h2 : (dropMatchCI ", then".data l).bind dropWSPlus with _ | r2
    · rcases h3 : (dropMatchCI " then".data l).bind dropWSPlus with _ | r3
      · rcases h4 : (dropMatchCI " and then".data l).bind dropWSPlus with _ | r4
        · simp [h1, h2, h3, h4, Option.orElse] at h
        · simp [h1, h2, h3, h4, Option.orElse] at h
          subst h
          rcases hm : dropMatchCI " and then".data l with _ | m
          · simp [hm] at h4
          · simp [hm] at h4
            calc r4.length < m.length := dropWSPlus_length m r4 h4
              _ ≤ l.length := dropMatchCI_length _ l m hm
      · simp [h1, h2, h3, Option.orElse] at h
        subst h
        rcases hm : dropMatchCI " then".data l with _ | m
        · simp [hm] at h3
        · simp [hm] at h3
          calc r3.length < m.length := dropWSPlus_length m r3 h3
            _ ≤ l.length := dropMatchCI_length _ l m hm
    · simp [h1, h2, Option.orElse] at h
      subst h
      rcases hm : dropMatchCI ", then".data l with _ | m
      · simp [hm] at h2
      · simp [hm] at h2
        calc r2.length < m.length := dropWSPlus_length m r2 h2
          _ ≤ l.length := dropMatchCI_length _ l m hm
  · simp [h1, Option.orElse] at h
    subst h
    rcases hm : dropMatchCI ";".data l with _ | m
    · simp [hm] at h1
    · simp [hm] at h1
      calc r1.length < m.length := dropWSPlus_length m r1 h1
        _ ≤ l.length := dropMatchCI_length _ l m hm

/-- Embeds `s.split(/;\s+|, then\s+| then\s+| and then\s+/i)`; `cur` is the reversed
current piece. The `fuel` argument only bounds the scan structurally: every
separator match consumes at least one character (`matchSep_length`), so with
`fuel = l.length` the exhaustion branch is unreachable. -/
def splitPartsAux : Nat → List Char → List Char → List String
  | _, cur, [] => [⟨cur.reverse⟩]
  | 0, cur, l => [⟨cur.reverse ++ l⟩]
  | fuel + 1, cur, c :: t =>
    match matchSep (c :: t) with
    | some rest => (⟨cur.reverse⟩ : String) :: splitPartsAux fuel [] rest
    | none => splitPartsAux fuel (c :: cur) t

def splitParts (s : String) : List String := splitPartsAux s.data.length [] s.data

def isDigit (c : Char) : Bool := '0' ≤ c && c ≤ '9'

/-- Leading-bullet strip `replace(/^\s*[-*•]\s*/, "")`. -/
def stripBullet (l : List Char) : List Char :=
  match l.dropWhile isWS with
  | c :: t => if c == '-' || c == '*' || c == '•' then t.dropWhile isWS else l
  | [] => l

/-- The regex `\d+\)\s*` matched at the current position. -/
def matchNumParen (l : List Char) : Option (List Char) :=
  if l.takeWhile isDigit = [] then none
  else match l.dropWhile isDigit with
    | ')' :: t => some (t.dropWhile isWS)
    | _ => none

/-- The regex `\d+\.\s*` matched at the current position. -/
def matchNumDot (l : List Char) : Option (List Char) :=
  if l.takeWhile isDigit = [] then none
  else match l.dropWhile isDigit with
    | '.' :: t => some (t.dropWhile isWS)
    | _ => none

/-- Leftmost (unanchored) occurrence of `\d+\.\s*`, removed; `acc` is the
reversed prefix already scanned. -/
def goNumDot (acc : List Char) : List Char → List Char
  | [] => acc.reverse
  | c :: t =>
    match matchNumDot (c :: t) with
    | some r => acc.reverse ++ r
    | none => goNumDot (c :: acc) t

/-- Numbering strip `replace(/^\d+\)\s*|\d+\.\s*/, "")`: the first alternative
is start-anchored, the second can match anywhere (leftmost occurrence wins). -/
def stripNumbering (l : List Char) : List Char :=
  match matchNumParen l with
  | some r => r
  | none => goNumDot [] l

/-- Is there a `)` later in the list whose tail is all whitespace (so that
`.*?\)\s*$` can complete)? -/
def parenMatchable : List Char → Bool
  | [] => false
  | c :: t => (c == ')' && t.all isWS) || parenMatchable t

/-- Trailing-parenthetical strip `replace(/\s*\(.*?\)\s*$/, "")`: the match
starts at the whitespace run preceding the first `(` from which a `)`-then-
whitespace-to-end completion exists, and extends to the end of the string. -/
def stripParenAux (acc : List Char) : List Char → List Char
  | [] => acc.reverse
  | c :: t =>
    if c == '(' && parenMatchable t then (acc.dropWhile isWS).reverse
    else stripParenAux (c :: acc) t

def stripTrailingParen (l : List Char) : List Char := stripParenAux [] l

/-- Embeds `normalizeTaskLine` of `AISummary.tsx`. -/
def normalizeTaskLine (s : String) : String :=
  jsTrim ⟨stripTrailingParen (stripNumbering (stripBullet s.data))⟩

def ACTION_VERBS : List String :=
  ["add", "implement", "create", "build", "fix", "wire", "connect", "render", "place",
   "capture", "summarize", "export", "apply", "clear", "detect", "enable", "toggle",
   "support", "show", "group", "prioritize"]

/-- The regex `^[\-\*•]\s+` tested against the raw line. -/
def bulletMark (s : String) : Bool :=
  match s.data with
  | c :: d :: _ => (c == '-' || c == '*' || c == '•') && isWS d
  | _ => false

/-- Embeds `looksActionable` of `AISummary.tsx`. -/
def looksActionable (s : String) : Bool :=
  let t := jsToLower s
  ACTION_VERBS.any (fun v => startsWordBounded t v)
  || wbContains t "then" || wbContains t "next" || wbContains t "after" || wbContains t "so that"
  || bulletMark s
  || wbContains t "task" || wbContains t "step"

/-- De-duplication key: lowercase, keep `[a-z0-9 ]`, first 80 chars. -/
def dedupKey (line : String) : String :=
  ⟨((jsToLower line).data.filter (fun c => ('a' ≤ c && c ≤ 'z') || isDigit c || c == ' ')).take 80⟩

/-- The candidate lines fed to the selection loop: sentences, split at clause
separators, each normalized. -/
def taskCandidates (text : String) : List String :=
  ((splitSentences text).map (fun s => (splitParts s).map normalizeTaskLine)).flatten

/-- The selection loop of `deriveTasksFromTranscript` (discovery order;
`nid` numbers the created tasks in place of `crypto.randomUUID()`). -/
def deriveLoop (max : Nat) : List String → List String → List DerivedTask → Nat → List DerivedTask
  | [], _, tasks, _ => tasks
  | line :: rest, seen, tasks, nid =>
    if line = "" || line.length < 6 then deriveLoop max rest seen tasks nid
    else if !looksActionable line then deriveLoop max rest seen tasks nid
    else
      let key := dedupKey line
      if seen.contains key then deriveLoop max rest seen tasks nid
      else
        let tasks' := tasks ++ [⟨nid, line, detectLane line, detectPriority line⟩]
        if max ≤ tasks'.length then tasks'
        else deriveLoop max rest (key :: seen) tasks' (nid + 1)

/-- Stable insertion by priority: the new element goes after every element
whose priority is `≤` its own. -/
def insertByPrio (x : DerivedTask) : List DerivedTask → List DerivedTask
  | [] => [x]
  | y :: ys => if y.prio ≤ x.prio then y :: insertByPrio x ys else x :: y :: ys

/-- The ES2019-stable `tasks.sort((a,b) => a.prio - b.prio)`, embedded as a
stable insertion sort (elements are inserted left to right, each after its
equals). -/
def sortByPrio (l : List DerivedTask) : List DerivedTask :=
  l.foldl (fun acc x => insertByPrio x acc) []

/-- Embeds `deriveTasksFromTranscript` of `AISummary.tsx`. -/
def deriveTasksFromTranscript (text : String) (max : Nat) : List DerivedTask :=
  if jsTrim text = "" then []
  else sortByPrio (deriveLoop max (taskCandidates text) [] [] 0)

/-! ### Properties of the deriver -/

theorem deriveLoop_length_le (max : Nat) :
    ∀ (raw seen : List String) (tasks : List DerivedTask) (nid : Nat),
      tasks.length < max → (deriveLoop max raw seen tasks nid).length ≤ max := by
  intro raw
  induction raw with
  | nil =>
    intro seen tasks nid h
    simpa [deriveLoop] using Nat.le_of_lt h
  | cons line rest ih =>
    intro seen tasks nid h
    unfold deriveLoop
    dsimp only
    split
    · exact ih _ _ _ h
    · split
      · exact ih _ _ _ h
      · split
        · exact ih _ _ _ h
        · split
          · simpa using h
          · refine ih _ _ _ ?_
            rename_i hnotfull
            simp at hnotfull ⊢
            omega

theorem mem_insertByPrio (x a : DerivedTask) :
    ∀ l, a ∈ insertByPrio x l ↔ a = x ∨ a ∈ l := by
  intro l
  induction l with
  | nil => simp [insertByPrio]
  | cons y ys ih =>
    by_cases h : y.prio ≤ x.prio
    · simp [insertByPrio, h, ih]
      tauto
    · simp [insertByPrio, h]

theorem length_insertByPrio (x : DerivedTask) :
    ∀ l, (insertByPrio x l).length = l.length + 1 := by
  intro l
  induction l with
  | nil => rfl
  | cons y ys ih =>
    by_cases h : y.prio ≤ x.prio <;> simp [insertByPrio, h, ih]

theorem length_sortByPrio_aux :
    ∀ (l acc : List DerivedTask),
      (l.foldl (fun acc x => insertByPrio x acc) acc).length = acc.length + l.length := by
  intro l
  induction l with
  | nil => intro acc; simp
  | cons x xs ih =>
    intro acc
    rw [List.foldl_cons, ih, length_insertByPrio]
    simp
    omega

theorem length_sortByPrio (l : List DerivedTask) : (sortByPrio l).length = l.length := by
  unfold sortByPrio
  rw [length_sortByPrio_aux]
  simp

theorem pairwise_insertByPrio (x : DerivedTask) :
    ∀ l, l.Pairwise (fun a b => a.prio ≤ b.prio) →
      (insertByPrio x l).Pairwise (fun a b => a.prio ≤ b.prio) := by
  intro l
  induction l with
  | nil => intro _; simp [insertByPrio]
  | cons y ys ih =>
    intro hp
    rcases List.pairwise_cons.mp hp with ⟨hy, hys⟩
    by_cases h : y.prio ≤ x.prio
    · rw [show insertByPrio x (y :: ys) = y :: insertByPrio x ys by simp [insertByPrio, h]]
      refine List.pairwise_cons.mpr ⟨?_, ih hys⟩
      intro b hb
      rcases (mem_insertByPrio x b ys).mp hb with rfl | hbys
      · exact h
      · exact hy b hbys
    · rw [show insertByPrio x (y :: ys) = x :: y :: ys by simp [insertByPrio, h]]
      refine List.pairwise_cons.mpr ⟨?_, hp⟩
      intro b hb
      rcases List.mem_cons.mp hb with rfl | hbys
      · omega
      · have := hy b hbys
        omega

theorem sortByPrio_pairwise_aux :
    ∀ (l acc : List DerivedTask), acc.Pairwise (fun a b => a.prio ≤ b.prio) →
      (l.foldl (fun acc x => insertByPrio x acc) acc).Pairwise
        (fun a b => a.prio ≤ b.prio) := by
  intro l
  induction l with
  | nil => intro acc h; exact h
  | cons x xs ih =>
    intro acc h
    rw [List.foldl_cons]
    exact ih _ (pairwise_insertByPrio x acc h)

theorem sortByPrio_pairwise (l : List DerivedTask) :
    (sortByPrio l).Pairwise (fun a b => a.prio ≤ b.prio) :=
  sortByPrio_pairwise_aux l [] (by simp)

/-- Stability of one stable insertion: within a priority class the inserted
element lands at the end; other classes are untouched. -/
theorem filter_insertByPrio (p : Nat) (x : DerivedTask) :
    ∀ l, l.Pairwise (fun a b => a.prio ≤ b.prio) →
      (insertByPrio x l).filter (fun t => t.prio = p)
        = if x.prio = p then l.filter (fun t => t.prio = p) ++ [x]
          else l.filter (fun t => t.prio = p) := by
  intro l
  induction l with
  | nil =>
    intro _
    by_cases hx : x.prio = p <;> simp [insertByPrio, hx]
  | cons y ys ih =>
    intro hp
    rcases List.pairwise_cons.mp hp with ⟨hy, hys⟩
    by_cases h : y.prio ≤ x.prio
    · rw [show insertByPrio x (y :: ys) = y :: insertByPrio x ys by simp [insertByPrio, h]]
      by_cases hx : x.prio = p <;> by_cases hyp : y.prio = p <;>
        simp [List.filter_cons, hx, hyp, ih hys]
    · rw [show insertByPrio x (y :: ys) = x :: y :: ys by simp [insertByPrio, h]]
      by_cases hx : x.prio = p
      · have hyfilter : (y :: ys).filter (fun t => t.prio = p) = [] := by
          rw [List.filter_eq_nil_iff]
          intro a ha
          rcases List.mem_cons.mp ha with rfl | hays
          · simp
            omega
          · have := hy a hays
            simp
            omega
        simp [List.filter_cons, hx, hyfilter]
      · simp [List.filter_cons, hx]

theorem filter_sortByPrio_aux (p : Nat) :
    ∀ (l acc : List DerivedTask), acc.Pairwise (fun a b => a.prio ≤ b.prio) →
      (l.foldl (fun acc x => insertByPrio x acc) acc).filter (fun t => t.prio = p)
        = acc.filter (fun t => t.prio = p) ++ l.filter (fun t => t.prio = p) := by
  intro l
  induction l with
  | nil => intro acc h; simp
  | cons x xs ih =>
    intro acc h
    rw [List.foldl_cons, ih _ (pairwise_insertByPrio x acc h), filter_insertByPrio p x acc h]
    by_cases hx : x.prio = p <;> simp [hx, List.filter_cons]

/-- The sort is stable: per priority class it returns exactly the tasks of the
input, in input order. -/
theorem filter_sortByPrio (p : Nat) (l : List DerivedTask) :
    (sortByPrio l).filter (fun t => t.prio = p) = l.filter (fun t => t.prio = p) := by
  unfold sortByPrio
  rw [filter_sortByPrio_aux p l [] (by simp)]
  simp

/-! ## Dynamic JS values

`normalizeAIOutput` receives "whatever came back from an LLM / backend", so its
argument is modelled as a dynamic value. Numbers are integers (no float value
is distinguishable on the normalizer paths below beyond truthiness and string
coercion of small integers). -/

inductive JVal where
  | vUndefined
  | vNull
  | vBool (b : Bool)
  | vNum (n : Int)
  | vStr (s : String)
  | vArr (xs : List JVal)
  | vObj (kvs : List (String × JVal))

/-- JS truthiness. -/
def truthy : JVal → Bool
  | .vUndefined => false
  | .vNull => false
  | .vBool b => b
  | .vNum n => n != 0
  | .vStr s => s ≠ ""
  | .vArr _ => true
  | .vObj _ => true

/-! The `String(...)` coercion (arrays stringify as their comma-joined
elements, with `null`/`undefined` elements empty, as in JS). -/

mutual
def jsToString : JVal → String
  | .vUndefined => "undefined"
  | .vNull => "null"
  | .vBool b => if b then "true" else "false"
  | .vNum n => toString n
  | .vStr s => s
  | .vArr xs => arrJoin xs
  | .vObj _ => "[object Object]"

def arrJoin : List JVal → String
  | [] => ""
  | [x] => elemToString x
  | x :: y :: t => elemToString x ++ "," ++ arrJoin (y :: t)

def elemToString : JVal → String
  | .vUndefined => ""
  | .vNull => ""
  | .vBool b => if b then "true" else "false"
  | .vNum n => toString n
  | .vStr s => s
  | .vArr xs => arrJoin xs
  | .vObj _ => "[object Object]"
end

/-- Property access `v?.k` (and `v.k` after a truthiness guard): `undefined`
unless `v` is an object with the key (object literals have unique keys). -/
def getField : JVal → String → JVal
  | .vObj kvs, k =>
    match kvs.find? (fun kv => kv.1 == k) with
    | some kv => kv.2
    | none => .vUndefined
  | _, _ => .vUndefined

/-- Nullish coalescing `v ?? d`. -/
def nullishD (v : JVal) (d : JVal) : JVal :=
  match v with
  | .vUndefined => d
  | .vNull => d
  | _ => v

/-! ## The Plan Normalizer (`aiOutputs.ts` part of `clearAiNotes.ts`) -/

namespace AiOutputs

/-- Embeds `AITask` of `aiOutputs.ts`. -/
structure AITask where
  title : String
  priority : Option String
  owner : Option String
  eta : Option String
  lane : Option String
  id : Option String
deriving DecidableEq, Repr

/-- Embeds `AIWorkflowEdge` of `aiOutputs.ts`. -/
structure AIWorkflowEdge where
  «from» : String
  «to» : String
  kind : Option String
deriving DecidableEq, Repr

structure Workplan where
  tasks : List AITask
deriving DecidableEq, Repr

/-- Embeds `AIOutput` of `aiOutputs.ts` (note: no `lanes` field in this module's
canonical shape). -/
structure AIOutput where
  summary_md : String
  workplan : Workplan
  workflow_edges : List AIWorkflowEdge
deriving DecidableEq, Repr

/-- Embeds `toArray` of `aiOutputs.ts` (`Array.isArray(v) ? v : []`). -/
def toArray : JVal → List JVal
  | .vArr xs => xs
  | _ => []

/-- An optional string field of a normalized task/edge:
`t?.f ? String(t.f) : undefined`. -/
def optStringField (t : JVal) (f : String) : Option String :=
  if truthy (getField t f) then some (jsToString (getField t f)) else none

/-- One task of `normalizeAIOutput`'s `tasks` map. -/
def normalizeTask (t : JVal) : AITask :=
  { title := jsTrim (jsToString (nullishD (getField t "title") (.vStr "")))
    priority := optStringField t "priority"
    owner := optStringField t "owner"
    eta := optStringField t "eta"
    lane := optStringField t "lane"
    id := optStringField t "id" }

/-- One edge of `normalizeAIOutput`'s `edges` map. -/
def normalizeEdge (e : JVal) : AIWorkflowEdge :=
  { «from» := jsTrim (jsToString (nullishD (getField e "from") (.vStr "")))
    «to» := jsTrim (jsToString (nullishD (getField e "to") (.vStr "")))
    kind := optStringField e "kind" }

/-- Embeds `normalizeAIOutput` of `aiOutputs.ts`. -/
def normalizeAIOutput (raw : JVal) : AIOutput :=
  let tasks := ((toArray (getField (getField raw "workplan") "tasks")).map normalizeTask).filter
    (fun t => 0 < t.title.length)
  let edges := ((toArray (getField raw "workflow_edges")).map normalizeEdge).filter
    (fun e => 0 < e.«from».length && 0 < e.«to».length)
  { summary_md := jsToString (nullishD (getField raw "summary_md") (.vStr ""))
    workplan := { tasks := tasks }
    workflow_edges := edges }

/-- The JSON reserialization of a canonical `AIOutput` (the spec's
"normalize_output_reserialized"): the object that `JSON.parse(JSON.stringify _)`
of the output yields — `undefined` (i.e. `none`) fields are dropped by
`JSON.stringify`. -/
def reserializeTask (t : AITask) : JVal :=
  .vObj (("title", .vStr t.title) ::
    ((t.priority.map (fun p => ("priority", JVal.vStr p))).toList ++
     (t.owner.map (fun o => ("owner", JVal.vStr o))).toList ++
     (t.eta.map (fun e => ("eta", JVal.vStr e))).toList ++
     (t.lane.map (fun l => ("lane", JVal.vStr l))).toList ++
     (t.id.map (fun i => ("id", JVal.vStr i))).toList))

def reserializeEdge (e : AIWorkflowEdge) : JVal :=
  .vObj (("from", .vStr e.«from») :: ("to", .vStr e.«to») ::
    (e.kind.map (fun k => ("kind", JVal.vStr k))).toList)

def reserializeAIOutput (o : AIOutput) : JVal :=
  .vObj [("summary_md", .vStr o.summary_md),
         ("workplan", .vObj [("tasks", .vArr (o.workplan.tasks.map reserializeTask))]),
         ("workflow_edges", .vArr (o.workflow_edges.map reserializeEdge))]

/-! ### Properties of the normalizer -/

theorem length_pos_of_ne_empty (s : String) (h : s ≠ "") : 0 < s.length := by
  cases s with
  | mk data =>
    cases data with
    | nil => exact absurd rfl h
    | cons c t => simp [String.length]

theorem ne_empty_of_length_pos (s : String) (h : 0 < s.length) : s ≠ "" := by
  intro he
  subst he
  simp [String.length] at h

/-- Every task surviving `normalizeAIOutput` has a non-empty title equal to its
own trim. -/
theorem normalizeAIOutput_task_titles (raw : JVal) :
    ∀ t ∈ (normalizeAIOutput raw).workplan.tasks, t.title ≠ "" ∧ jsTrim t.title = t.title := by
  intro t ht
  unfold normalizeAIOutput at ht
  simp only at ht
  rcases List.mem_filter.mp ht with ⟨hmem, hpred⟩
  rcases List.mem_map.mp hmem with ⟨v, _, hv⟩
  constructor
  · exact ne_empty_of_length_pos _ (by simpa using hpred)
  · rw [← hv]
    exact jsTrim_idem _

/-- Every edge surviving `normalizeAIOutput` has non-empty, trimmed `from` and
`to`. -/
theorem normalizeAIOutput_edge_endpoints (raw : JVal) :
    ∀ e ∈ (normalizeAIOutput raw).workflow_edges,
      (e.«from» ≠ "" ∧ jsTrim e.«from» = e.«from») ∧ (e.«to» ≠ "" ∧ jsTrim e.«to» = e.«to») := by
  intro e he
  unfold normalizeAIOutput at he
  simp only at he
  rcases List.mem_filter.mp he with ⟨hmem, hpred⟩
  rcases List.mem_map.mp hmem with ⟨v, _, hv⟩
  simp at hpred
  refine ⟨⟨ne_empty_of_length_pos _ hpred.1, ?_⟩, ⟨ne_empty_of_length_pos _ hpred.2, ?_⟩⟩
  · rw [← hv]; exact jsTrim_idem _
  · rw [← hv]; exact jsTrim_idem _

theorem normalizeTask_reserializeTask (t : AITask)
    (htitle : jsTrim t.title = t.title)
    (hp : t.priority ≠ some "") (ho : t.owner ≠ some "") (he : t.eta ≠ some "")
    (hl : t.lane ≠ some "") (hi : t.id ≠ some "") :
    normalizeTask (reserializeTask t) = t := by
  obtain ⟨title, priority, owner, eta, lane, id⟩ := t
  simp only at htitle hp ho he hl hi
  cases priority <;> cases owner <;> cases eta <;> cases lane <;> cases id <;>
    simp_all [normalizeTask, reserializeTask, getField, optStringField, nullishD, jsToString,
      truthy, List.find?]

theorem normalizeEdge_reserializeEdge (e : AIWorkflowEdge)
    (hf : jsTrim e.«from» = e.«from») (ht : jsTrim e.«to» = e.«to»)
    (hk : e.kind ≠ some "") :
    normalizeEdge (reserializeEdge e) = e := by
  obtain ⟨f, t, kind⟩ := e
  simp only at hf ht hk
  cases kind <;>
    simp_all [normalizeEdge, reserializeEdge, getField, optStringField, nullishD, jsToString,
      truthy, List.find?]

/-- Re-normalizing the JSON reserialization of a canonical output is the
identity, provided every present optional string field is non-empty (a present
empty field is truthy-guarded away on the second pass). -/
theorem normalizeAIOutput_reserialize (o : AIOutput)
    (htasks : ∀ t ∈ o.workplan.tasks, jsTrim t.title = t.title ∧ t.title ≠ "" ∧
      t.priority ≠ some "" ∧ t.owner ≠ some "" ∧ t.eta ≠ some "" ∧ t.lane ≠ some "" ∧
      t.id ≠ some "")
    (hedges : ∀ e ∈ o.workflow_edges, jsTrim e.«from» = e.«from» ∧ e.«from» ≠ "" ∧
      jsTrim e.«to» = e.«to» ∧ e.«to» ≠ "" ∧ e.kind ≠ some "") :
    normalizeAIOutput (reserializeAIOutput o) = o := by
  have hsum : normalizeAIOutput (reserializeAIOutput o) =
      { summary_md := o.summary_md,
        workplan := { tasks := (List.filter (fun t => 0 < t.title.length)
          (List.map normalizeTask (List.map reserializeTask o.workplan.tasks))) },
        workflow_edges := (List.filter (fun e => 0 < e.«from».length && 0 < e.«to».length)
          (List.map normalizeEdge (List.map reserializeEdge o.workflow_edges))) } := rfl
  rw [hsum]
  have ht2 : (o.workplan.tasks.map reserializeTask).map normalizeTask = o.workplan.tasks := by
    rw [List.map_map]
    have hcong : ∀ t ∈ o.workplan.tasks, (normalizeTask ∘ reserializeTask) t = id t := by
      intro t ht
      obtain ⟨h1, _, h3, h4, h5, h6, h7⟩ := htasks t ht
      simpa using normalizeTask_reserializeTask t h1 h3 h4 h5 h6 h7
    rw [List.map_congr_left hcong, List.map_id]
  have he2 : (o.workflow_edges.map reserializeEdge).map normalizeEdge = o.workflow_edges := by
    rw [List.map_map]
    have hcong : ∀ e ∈ o.workflow_edges, (normalizeEdge ∘ reserializeEdge) e = id e := by
      intro e he
      obtain ⟨h1, _, h3, _, h5⟩ := hedges e he
      simpa using normalizeEdge_reserializeEdge e h1 h3 h5
    rw [List.map_congr_left hcong, List.map_id]
  rw [ht2, he2]
  have ht3 : (o.workplan.tasks).filter (fun t => 0 < t.title.length) = o.workplan.tasks := by
    rw [List.filter_eq_self]
    intro t ht
    simpa using length_pos_of_ne_empty _ (htasks t ht).2.1
  have he3 : (o.workflow_edges).filter
      (fun e => 0 < e.«from».length && 0 < e.«to».length) = o.workflow_edges := by
    rw [List.filter_eq_self]
    intro e he
    obtain ⟨_, h2, _, h4, _⟩ := hedges e he
    simp [length_pos_of_ne_empty _ h2, length_pos_of_ne_empty _ h4]
  rw [ht3, he3]

end AiOutputs

/-! ## Gemini task conversion (`AISummary.tsx` part of `clearAiNotes.ts`) -/

/-- The `priority` prop of the `AISummary` component's `aiOut.workplan.tasks`
entries: `string | number`. -/
inductive PriorityVal where
  | pstr (s : String)
  | pnum (n : Int)
deriving DecidableEq, Repr

/-- One task of the `aiOut` prop of `AISummary`. -/
structure GTask where
  id : Option String
  title : String
  priority : Option PriorityVal
  lane : Option String
deriving DecidableEq, Repr

/-- Embeds `pickLane` of `AISummary.tsx` (the two word-bounded alternations, then the
substring fallback). -/
def pickLane (text : String) : Lane :=
  let t := jsToLower text
  if ["front", "frontend", "ui", "ux", "three", "webxr", "ar", "2d", "3d", "scene"].any
      (fun w => wbContains t w) then .Frontend
  else if ["back", "backend", "api", "storage", "auth", "stt", "asr", "llm", "summary",
      "plan", "export"].any (fun w => wbContains t w) then .Backend
  else if containsSub t "plan" || containsSub t "transcript" || containsSub t "summary"
      || containsSub t "export" then .Backend
  else .Frontend

/-- The priority text `(typeof t.priority === "string" ? t.priority :
String(t.priority ?? "2")).toLowerCase()`. -/
def geminiPrioTxt : Option PriorityVal → String
  | some (.pstr s) => jsToLower s
  | some (.pnum n) => jsToLower (toString n)
  | none => jsToLower "2"

/-- The test `/\b(^0$|p0|critical|blocker|must)\b/.test(prioTxt)`: the anchored
alternative matches only the exact string `"0"`; the others are word-bounded
substrings. -/
def geminiP0Test (t : String) : Bool :=
  t == "0" || wbContains t "p0" || wbContains t "critical" || wbContains t "blocker"
    || wbContains t "must"

/-- The test `/\b(^1$|p1|important|high)\b/.test(prioTxt)`. -/
def geminiP1Test (t : String) : Bool :=
  t == "1" || wbContains t "p1" || wbContains t "important" || wbContains t "high"

/-- The `prio` computation inside `geminiTasks`'s map. -/
def geminiPrio (priority : Option PriorityVal) : Nat :=
  let prioTxt := geminiPrioTxt priority
  if geminiP0Test prioTxt then 0
  else if geminiP1Test prioTxt then 1
  else 2

/-- The `lane` computation inside `geminiTasks`'s map:
`(t.lane || "").toLowerCase().includes("back") ? "Backend" : ...`. -/
def geminiLane (t : GTask) : Lane :=
  let laneTxt := jsToLower (t.lane.getD "")
  if containsSub laneTxt "back" then .Backend
  else if containsSub laneTxt "front" then .Frontend
  else pickLane t.title

/-- Embeds `geminiTasks` of `AISummary.tsx` (ids abstracted as positions in place of
`t.id || crypto.randomUUID()`). -/
def geminiTasks (tasks : List GTask) : List DerivedTask :=
  if tasks.isEmpty then []
  else (tasks.enum.map (fun ti =>
    { id := ti.1, title := ti.2.title, lane := geminiLane ti.2, prio := geminiPrio ti.2.priority }))

/-! ## Geometry (the fragment of three.js used by `planApply.ts`) -/

structure Vec3 where
  x : ℚ
  y : ℚ
  z : ℚ
deriving DecidableEq, Repr

structure Quat where
  x : ℚ
  y : ℚ
  z : ℚ
  w : ℚ
deriving DecidableEq, Repr

/-- The identity quaternion `new THREE.Quaternion()`. -/
def identQuat : Quat := ⟨0, 0, 0, 1⟩

/-- Embeds `THREE.Vector3.applyQuaternion` (`v + 2 w (q × v) + 2 q × (q × v)` in the
form three.js computes it). -/
def applyQuaternion (v : Vec3) (q : Quat) : Vec3 :=
  let tx := 2 * (q.y * v.z - q.z * v.y)
  let ty := 2 * (q.z * v.x - q.x * v.z)
  let tz := 2 * (q.x * v.y - q.y * v.x)
  { x := v.x + q.w * tx + q.y * tz - q.z * ty
    y := v.y + q.w * ty + q.z * tx - q.x * tz
    z := v.z + q.w * tz + q.x * ty - q.y * tx }

def vadd (a b : Vec3) : Vec3 := ⟨a.x + b.x, a.y + b.y, a.z + b.z⟩

/-- The board's decomposed world transform (`matrixWorld.decompose` of
`xr.boardMesh || xr.boardAnchor`; the scale component is unused). -/
structure BoardTf where
  position : Vec3
  quaternion : Quat
deriving DecidableEq, Repr

/-! ## The plan shape consumed by the Wall Applier (`AIOutput` of `aiPlan.ts`,
per its usage in `planApply.ts` and the localforage data layer's declaration) -/

namespace AiPlan

structure Task where
  id : Option String
  title : String
  description : Option String
  owner : Option String
  eta : Option String
  priority : Option String
  lane : Option String
deriving DecidableEq, Repr

structure WorkflowEdge where
  «from» : String
  «to» : String
deriving DecidableEq, Repr

structure Workplan where
  tasks : List Task
  lanes : Option (List String)
deriving DecidableEq, Repr

structure AIOutput where
  summary_md : String
  workplan : Workplan
  workflow_edges : List WorkflowEdge
deriving DecidableEq, Repr

end AiPlan

/-! ## The localStorage data layer (`db.ts`), as explicit state -/

namespace Db

/-- Embeds `NoteDoc` (pose flattened; `textColor` never reaches the stored doc). -/
structure NoteDoc where
  text : String
  color : String
  position : Vec3
  quaternion : Quat
  size : ℚ
  votes : Nat
  aiGenerated : Bool
deriving DecidableEq, Repr

structure StoredNote where
  id : Nat
  text : String
  color : String
  position : Vec3
  quaternion : Quat
  size : ℚ
  votes : Nat
  aiGenerated : Bool
deriving DecidableEq, Repr

/-- The runtime value occupying `addEdge`'s 4th positional parameter `kind`.
`planApply.ts` passes the object literal `\x7b aiGenerated: true \x7d` there
(JS applies no runtime type check), so the embedding keeps both shapes. -/
inductive EdgeKindArg where
  | kindStr (s : String)
  | flagObj (aiGenerated : Bool)
deriving DecidableEq, Repr

/-- The optional 5th `extra` parameter of `addEdge`. -/
structure EdgeExtra where
  aiGenerated : Bool
deriving DecidableEq, Repr

/-- A stored edge `\x7b id, from, to, kind, ...(extra || \x7b\x7d) \x7d`: the
spread contributes a top-level `aiGenerated` key only when `extra` is given. -/
structure StoredEdge where
  id : Nat
  «from» : Nat
  «to» : Nat
  kind : EdgeKindArg
  aiGenerated : Option Bool
deriving DecidableEq, Repr

/-- The localStorage content for one board (note/edge arrays), with the
`uid()` supply abstracted as a counter. -/
structure WallState where
  notes : List StoredNote
  edges : List StoredEdge
  nextId : Nat
deriving DecidableEq, Repr

def emptyWall : WallState := ⟨[], [], 0⟩

/-- Embeds `addNote` of `db.ts`: append, return the generated id. -/
def addNote (s : WallState) (n : NoteDoc) : Nat × WallState :=
  (s.nextId,
   { notes := s.notes ++ [⟨s.nextId, n.text, n.color, n.position, n.quaternion, n.size,
       n.votes, n.aiGenerated⟩],
     edges := s.edges,
     nextId := s.nextId + 1 })

/-- Embeds `addEdge` of `db.ts`: `kind` is the 4th positional parameter, `extra` the
5th; the stored record spreads `extra` on top. -/
def addEdge (s : WallState) («from» «to» : Nat) (kind : EdgeKindArg)
    (extra : Option EdgeExtra) : Nat × WallState :=
  (s.nextId,
   { notes := s.notes,
     edges := s.edges ++ [⟨s.nextId, «from», «to», kind, extra.map (fun e => e.aiGenerated)⟩],
     nextId := s.nextId + 1 })

end Db

/-! ## The Wall Applier (`planApply.ts`) -/

namespace PlanApply

open Db

/-- First-match association lookup (`Map.get` / object indexing; keys are
unique by construction of the updates below). -/
def lookupA {α : Type} (m : List (String × α)) (k : String) : Option α :=
  match m.find? (fun kv => kv.1 == k) with
  | some kv => some kv.2
  | none => none

/-- Embeds `Map.set` / object key assignment: replace an existing binding in place,
else append. -/
def setAssoc {α : Type} (m : List (String × α)) (k : String) (v : α) : List (String × α) :=
  if (m.find? (fun kv => kv.1 == k)).isSome then
    m.map (fun kv => if kv.1 == k then (k, v) else kv)
  else m ++ [(k, v)]

/-- JS truthiness of an optional string (`undefined` and `""` are falsy). -/
def truthyS : Option String → Bool
  | some s => s ≠ ""
  | none => false

/-- The options record of `applyPlanToWall`. -/
structure ApplyOpts where
  spacingX : Option ℚ
  spacingY : Option ℚ
  noteSize : Option ℚ
  startX : Option ℚ
  startY : Option ℚ
  colorByLane : Option (List (String × String))
  maxPerLane : Option Nat

/-- Stands for `applyPlanToWall` called without an options argument. -/
def noOpts : ApplyOpts := ⟨none, none, none, none, none, none, none⟩

def palette : List String :=
  ["#FFD966", "#A7F3D0", "#93C5FD", "#FCA5A5", "#FBCFE8", "#FDE68A", "#C7D2FE", "#D1FAE5"]

def headerColor : String := "#111827"

def headerTextColor : String := "#ffffff"

/-- Embeds `lanes.forEach((lane, i) => if (!colorByLane[lane]) colorByLane[lane] =
palette[i % palette.length])` over the spread-copied overrides. -/
def assignPalette (overrides : List (String × String)) (lanes : List String) :
    List (String × String) :=
  lanes.enum.foldl (fun m il =>
    if truthyS (lookupA m il.2) then m
    else setAssoc m il.2 (palette.getD (il.1 % palette.length) "")) overrides

/-- The lane-to-tasks map: every lane keyed to `[]`, then each task appended to
its lane (its own `lane` field if it names a known lane, else the first lane),
respecting the per-lane cap. -/
def buildByLane (lanes : List String) (tasks : List AiPlan.Task) (cap : Nat) :
    List (String × List AiPlan.Task) :=
  let init := lanes.foldl (fun m l => setAssoc m l []) []
  tasks.foldl (fun m t =>
    let lane := match t.lane with
      | some l => if l ≠ "" && lanes.contains l then l else lanes.headD ""
      | none => lanes.headD ""
    let cur := (lookupA m lane).getD []
    if cur.length < cap then setAssoc m lane (cur ++ [t]) else m) init

/-- Embeds `summarizeTaskTitle` of `planApply.ts`: `"[priority] title — owner (eta)"`
with falsy owner/eta segments omitted, priority defaulting to `"P1"` and a
falsy title to `"Task"`. -/
def summarizeTaskTitle (title : String) (priority owner eta : Option String) : String :=
  let p := priority.getD "P1"
  let own := match owner with
    | some o => if o ≠ "" then " — " ++ o else ""
    | none => ""
  let whenTxt := match eta with
    | some e => if e ≠ "" then " (" ++ e ++ ")" else ""
    | none => ""
  "[" ++ p ++ "] " ++ (if title = "" then "Task" else title) ++ own ++ whenTxt

/-- Embeds `normalizeKey` of `planApply.ts` (`(s || "").trim()`). -/
def normalizeKey (s : String) : String := jsTrim s

/-- The argument record of `placeNote` (minus `boardId` and the `b2w` closure;
`textColor` is accepted but never stored, as in the source). -/
structure PlaceNoteArgs where
  title : String
  detail : Option String
  color : String
  textColor : Option String
  x : ℚ
  y : ℚ
  z : ℚ
  noteSize : ℚ
  aiGenerated : Bool

/-- Embeds `placeNote` of `planApply.ts`: convert the board-local point to world
space, store the note with the identity orientation and zero votes. -/
def placeNote (s : WallState) (b2w : Vec3 → Vec3) (a : PlaceNoteArgs) : Nat × WallState :=
  let posW := b2w ⟨a.x, a.y, a.z⟩
  let q := identQuat
  let text := match a.detail with
    | some d => if d ≠ "" then a.title ++ "\n" ++ d else a.title
    | none => a.title
  Db.addNote s ⟨text, a.color, posW, q, a.noteSize, 0, a.aiGenerated⟩

/-- The resolved configuration of one `applyPlanToWall` run. -/
structure ApplyCfg where
  spacingX : ℚ
  spacingY : ℚ
  noteSize : ℚ
  startX : ℚ
  startY : ℚ
  colorByLane : List (String × String)
  byLane : List (String × List AiPlan.Task)
  b2w : Vec3 → Vec3

/-- One task row of the per-lane loop: place the note, record the task key
(`t.id || t.title`) against the created note id. -/
def taskStep (cfg : ApplyCfg) (lx : Nat) (lane : String)
    (acc : WallState × List (String × Nat)) (ri : Nat × AiPlan.Task) :
    WallState × List (String × Nat) :=
  let r := ri.1
  let t := ri.2
  let title := summarizeTaskTitle t.title t.priority t.owner t.eta
  let color := (lookupA cfg.colorByLane lane).getD ""
  let placed := placeNote acc.1 cfg.b2w
    ⟨title, t.description, color, none,
     cfg.startX + lx * cfg.spacingX, cfg.startY - (r + 1) * cfg.spacingY, 0, cfg.noteSize, true⟩
  let key := if truthyS t.id then t.id.getD "" else t.title
  (placed.2, setAssoc acc.2 key placed.1)

/-- One lane of the note-creation loop: header note at row 0, then one note
per (capped) task row. -/
def laneStep (cfg : ApplyCfg) (acc : WallState × List (String × Nat)) (li : Nat × String) :
    WallState × List (String × Nat) :=
  let lx := li.1
  let lane := li.2
  let s' := (placeNote acc.1 cfg.b2w
    ⟨"🗂 " ++ lane, none, headerColor, some headerTextColor,
     cfg.startX + lx * cfg.spacingX, cfg.startY, 0, cfg.noteSize * 0.75, true⟩).2
  ((lookupA cfg.byLane lane).getD []).enum.foldl (taskStep cfg lx lane) (s', acc.2)

/-- One workflow edge: resolve both endpoints through the task-key map (raw
key, then trimmed key); create the edge only when both resolve to distinct
note ids. The edge call passes the flags object in `addEdge`'s 4th (`kind`)
positional slot, exactly as `planApply.ts` does. -/
def edgeStep (km : List (String × Nat)) (s : WallState) (e : AiPlan.WorkflowEdge) : WallState :=
  let fromId := lookupA km e.«from» <|> lookupA km (normalizeKey e.«from»)
  let toId := lookupA km e.«to» <|> lookupA km (normalizeKey e.«to»)
  match fromId, toId with
  | some f, some t => if f ≠ t then (Db.addEdge s f t (.flagObj true) none).2 else s
  | _, _ => s

/-- The decision `edgeStep` takes for one workflow edge, by itself: the pair
of resolved note ids when both endpoints resolve (raw key, then trimmed key)
to distinct ids, `none` when the edge is to be skipped. -/
def resolveEdge (km : List (String × Nat)) (e : AiPlan.WorkflowEdge) : Option (Nat × Nat) :=
  let fromId := lookupA km e.«from» <|> lookupA km (normalizeKey e.«from»)
  let toId := lookupA km e.«to» <|> lookupA km (normalizeKey e.«to»)
  match fromId, toId with
  | some f, some t => if f ≠ t then some (f, t) else none
  | _, _ => none

/-- The effective lane list: `workplan.lanes` when non-empty, else the single
default lane `"Tasks"`. -/
def applyLanes (aiOut : AiPlan.AIOutput) : List String :=
  match aiOut.workplan.lanes with
  | some ls => if ls.isEmpty then ["Tasks"] else ls
  | none => ["Tasks"]

/-- The resolved run configuration (option defaults, palette assignment,
lane-to-task map, board-local-to-world closure). -/
def applyCfg (aiOut : AiPlan.AIOutput) (b : BoardTf) (opts : ApplyOpts) : ApplyCfg :=
  let lanes := applyLanes aiOut
  { spacingX := opts.spacingX.getD 0.28
    spacingY := opts.spacingY.getD 0.20
    noteSize := opts.noteSize.getD 0.18
    startX := opts.startX.getD (-0.6)
    startY := opts.startY.getD 0.35
    colorByLane := assignPalette (opts.colorByLane.getD []) lanes
    byLane := buildByLane lanes aiOut.workplan.tasks (opts.maxPerLane.getD 8)
    b2w := fun v => vadd (applyQuaternion v b.quaternion) b.position }

/-- The note-creation phase: lane headers and task rows, in lane order,
producing the new store and the task-key-to-note-id map. -/
def applyNotesPhase (aiOut : AiPlan.AIOutput) (b : BoardTf) (opts : ApplyOpts)
    (s0 : WallState) : WallState × List (String × Nat) :=
  (applyLanes aiOut).enum.foldl (laneStep (applyCfg aiOut b opts)) (s0, [])

/-- The whole successful run: notes phase, then (when any workflow edges are
present) the edge-wiring loop. -/
def applyBody (aiOut : AiPlan.AIOutput) (b : BoardTf) (opts : ApplyOpts)
    (s0 : WallState) : WallState :=
  let s1km := applyNotesPhase aiOut b opts s0
  if aiOut.workflow_edges.isEmpty then s1km.1
  else aiOut.workflow_edges.foldl (edgeStep s1km.2) s1km.1

/-- Embeds `applyPlanToWall` of `planApply.ts`, as a state transformer over the
board's stored notes/edges; a thrown `Error` is the `Except.error` of its
message, and leaves the state as it was at the throw point. -/
def applyPlanToWall (aiOut : AiPlan.AIOutput) (board : Option BoardTf) (opts : ApplyOpts)
    (s0 : WallState) : Except String Unit × WallState :=
  if aiOut.workplan.tasks.isEmpty then (.error "No tasks to apply.", s0)
  else match board with
  | none => (.error "Board not placed yet.", s0)
  | some b => (.ok (), applyBody aiOut b opts s0)

/-! ### Structural lemmas about the applier -/

/-- The call `placeNote` appends exactly one note, stored with zero votes and the
identity orientation. -/
theorem placeNote_notes (s : WallState) (b2w : Vec3 → Vec3) (a : PlaceNoteArgs) :
    ∃ n, (placeNote s b2w a).2.notes = s.notes ++ [n] ∧
      n.votes = 0 ∧ n.quaternion = identQuat := by
  exact ⟨_, rfl, rfl, rfl⟩

theorem placeNote_edges (s : WallState) (b2w : Vec3 → Vec3) (a : PlaceNoteArgs) :
    (placeNote s b2w a).2.edges = s.edges := rfl

theorem taskStep_edges (cfg : ApplyCfg) (lx : Nat) (lane : String)
    (acc : WallState × List (String × Nat)) (ri : Nat × AiPlan.Task) :
    (taskStep cfg lx lane acc ri).1.edges = acc.1.edges := rfl

theorem foldl_taskStep_edges (cfg : ApplyCfg) (lx : Nat) (lane : String) :
    ∀ (l : List (Nat × AiPlan.Task)) (acc : WallState × List (String × Nat)),
      (l.foldl (taskStep cfg lx lane) acc).1.edges = acc.1.edges := by
  intro l
  induction l with
  | nil => intro acc; rfl
  | cons ri rest ih =>
    intro acc
    rw [List.foldl_cons, ih, taskStep_edges]

theorem laneStep_edges (cfg : ApplyCfg) (acc : WallState × List (String × Nat))
    (li : Nat × String) : (laneStep cfg acc li).1.edges = acc.1.edges := by
  unfold laneStep
  rw [foldl_taskStep_edges]
  rfl

theorem foldl_laneStep_edges (cfg : ApplyCfg) :
    ∀ (l : List (Nat × String)) (acc : WallState × List (String × Nat)),
      (l.foldl (laneStep cfg) acc).1.edges = acc.1.edges := by
  intro l
  induction l with
  | nil => intro acc; rfl
  | cons li rest ih =>
    intro acc
    rw [List.foldl_cons, ih, laneStep_edges]

/-- An edge step either leaves the store alone or appends one edge with
distinct endpoints (and no top-level `aiGenerated` key — the flags object sits
in the `kind` slot). -/
theorem edgeStep_edges (km : List (String × Nat)) (s : WallState) (e : AiPlan.WorkflowEdge) :
    (edgeStep km s e).edges = s.edges ∨
      ∃ i f t, f ≠ t ∧ (edgeStep km s e).edges = s.edges ++ [⟨i, f, t, .flagObj true, none⟩] := by
  unfold edgeStep
  dsimp only
  rcases lookupA km e.«from» <|> lookupA km (normalizeKey e.«from») with _ | f
  · exact Or.inl rfl
  · rcases lookupA km e.«to» <|> lookupA km (normalizeKey e.«to») with _ | t
    · exact Or.inl rfl
    · dsimp only
      by_cases hft : f ≠ t
      · rw [if_pos hft]
        exact Or.inr ⟨s.nextId, f, t, hft, rfl⟩
      · rw [if_neg hft]
        exact Or.inl rfl

theorem edgeStep_notes (km : List (String × Nat)) (s : WallState) (e : AiPlan.WorkflowEdge) :
    (edgeStep km s e).notes = s.notes := by
  unfold edgeStep
  dsimp only
  rcases lookupA km e.«from» <|> lookupA km (normalizeKey e.«from») with _ | f
  · rfl
  · rcases lookupA km e.«to» <|> lookupA km (normalizeKey e.«to») with _ | t
    · rfl
    · dsimp only
      by_cases hft : f ≠ t
      · rw [if_pos hft]; rfl
      · rw [if_neg hft]

/-- One edge step, characterized exactly: the endpoint pairs of the stored
edges grow by `resolveEdge`'s verdict for this entry and nothing else. -/
theorem edgeStep_endpoints (km : List (String × Nat)) (s : WallState)
    (e : AiPlan.WorkflowEdge) :
    ((edgeStep km s e).edges).map (fun x => (x.«from», x.«to»))
      = (s.edges.map (fun x => (x.«from», x.«to»))) ++ (resolveEdge km e).toList := by
  unfold edgeStep resolveEdge
  dsimp only
  rcases lookupA km e.«from» <|> lookupA km (normalizeKey e.«from») with _ | f
  · simp
  · rcases lookupA km e.«to» <|> lookupA km (normalizeKey e.«to») with _ | t
    · simp
    · dsimp only
      by_cases hft : f ≠ t
      · rw [if_pos hft, if_pos hft]
        simp [Db.addEdge]
      · rw [if_neg hft, if_neg hft]
        simp

/-- The edge loop wires each workflow edge independently: the endpoint pairs
of the stored edges are exactly the old ones followed by `resolveEdge`'s
verdict for every entry in order — a skipped (unresolvable or self-loop)
entry removes nothing but itself. -/
theorem foldl_edgeStep_endpoints (km : List (String × Nat)) :
    ∀ (es : List AiPlan.WorkflowEdge) (s : WallState),
      ((es.foldl (edgeStep km) s).edges).map (fun x => (x.«from», x.«to»))
        = (s.edges.map (fun x => (x.«from», x.«to»))) ++ es.filterMap (resolveEdge km) := by
  intro es
  induction es with
  | nil => intro s; simp
  | cons e rest ih =>
    intro s
    rw [List.foldl_cons, ih, edgeStep_endpoints]
    cases h : resolveEdge km e <;> simp [h, List.filterMap_cons]

theorem foldl_edgeStep_notes (km : List (String × Nat)) :
    ∀ (es : List AiPlan.WorkflowEdge) (s : WallState),
      (es.foldl (edgeStep km) s).notes = s.notes := by
  intro es
  induction es with
  | nil => intro s; rfl
  | cons e rest ih =>
    intro s
    rw [List.foldl_cons, ih, edgeStep_notes]

theorem foldl_edgeStep_edges_inv (km : List (String × Nat)) :
    ∀ (es : List AiPlan.WorkflowEdge) (s : WallState)
      (P : StoredEdge → Prop)
      (hnew : ∀ i f t, f ≠ t → P ⟨i, f, t, .flagObj true, none⟩)
      (hs : ∀ e ∈ s.edges, P e),
      ∀ e ∈ (es.foldl (edgeStep km) s).edges, P e := by
  intro es
  induction es with
  | nil => intro s P _ hs; exact hs
  | cons e rest ih =>
    intro s P hnew hs
    rw [List.foldl_cons]
    refine ih (edgeStep km s e) P hnew ?_
    rcases edgeStep_edges km s e with h | ⟨i, f, t, hft, h⟩
    · rw [h]; exact hs
    · rw [h]
      intro x hx
      rcases List.mem_append.mp hx with hx | hx
      · exact hs x hx
      · rw [List.mem_singleton.mp hx]
        exact hnew i f t hft

/-- Every note appearing after the task-row loop was already there or carries
the placeNote constants. -/
theorem foldl_taskStep_notes_inv (cfg : ApplyCfg) (lx : Nat) (lane : String) :
    ∀ (l : List (Nat × AiPlan.Task)) (acc : WallState × List (String × Nat)),
      ∀ n ∈ (l.foldl (taskStep cfg lx lane) acc).1.notes,
        n ∈ acc.1.notes ∨ (n.votes = 0 ∧ n.quaternion = identQuat) := by
  intro l
  induction l with
  | nil => intro acc n hn; exact Or.inl hn
  | cons ri rest ih =>
    intro acc n hn
    rw [List.foldl_cons] at hn
    rcases ih (taskStep cfg lx lane acc ri) n hn with hmem | hq
    · obtain ⟨m, hm, hv, hqq⟩ := placeNote_notes acc.1 cfg.b2w
        ⟨summarizeTaskTitle ri.2.title ri.2.priority ri.2.owner ri.2.eta, ri.2.description,
         (lookupA cfg.colorByLane lane).getD "", none,
         cfg.startX + lx * cfg.spacingX, cfg.startY - (ri.1 + 1) * cfg.spacingY, 0,
         cfg.noteSize, true⟩
      have : (taskStep cfg lx lane acc ri).1.notes = acc.1.notes ++ [m] := hm
      rw [this] at hmem
      rcases List.mem_append.mp hmem with h | h
      · exact Or.inl h
      · rw [List.mem_singleton.mp h]
        exact Or.inr ⟨hv, hqq⟩
    · exact Or.inr hq

theorem laneStep_notes_inv (cfg : ApplyCfg) (acc : WallState × List (String × Nat))
    (li : Nat × String) :
    ∀ n ∈ (laneStep cfg acc li).1.notes,
      n ∈ acc.1.notes ∨ (n.votes = 0 ∧ n.quaternion = identQuat) := by
  intro n hn
  unfold laneStep at hn
  rcases foldl_taskStep_notes_inv cfg li.1 li.2 _ _ n hn with hmem2 | hq2
  · obtain ⟨m, hm, hv, hqq⟩ := placeNote_notes acc.1 cfg.b2w
      ⟨"🗂 " ++ li.2, none, headerColor, some headerTextColor,
       cfg.startX + li.1 * cfg.spacingX, cfg.startY, 0, cfg.noteSize * 0.75, true⟩
    have hmem3 : n ∈ acc.1.notes ++ [m] := by
      rw [← hm]
      exact hmem2
    rcases List.mem_append.mp hmem3 with h | h
    · exact Or.inl h
    · rw [List.mem_singleton.mp h]
      exact Or.inr ⟨hv, hqq⟩
  · exact Or.inr hq2

theorem applyPlanToWall_some (aiOut : AiPlan.AIOutput) (b : BoardTf) (opts : ApplyOpts)
    (s0 : WallState) (hne : aiOut.workplan.tasks.isEmpty = false) :
    applyPlanToWall aiOut (some b) opts s0 = (.ok (), applyBody aiOut b opts s0) := by
  unfold applyPlanToWall
  rw [hne]
  rfl

theorem applyBody_notes (aiOut : AiPlan.AIOutput) (b : BoardTf) (opts : ApplyOpts)
    (s0 : WallState) :
    (applyBody aiOut b opts s0).notes = (applyNotesPhase aiOut b opts s0).1.notes := by
  unfold applyBody
  dsimp only
  split
  · rfl
  · rw [foldl_edgeStep_notes]

theorem applyNotesPhase_edges (aiOut : AiPlan.AIOutput) (b : BoardTf) (opts : ApplyOpts)
    (s0 : WallState) : (applyNotesPhase aiOut b opts s0).1.edges = s0.edges := by
  unfold applyNotesPhase
  rw [foldl_laneStep_edges]

/-- The whole successful run creates exactly one edge per resolvable,
distinct-endpoint workflow entry, in order, independently of the entries that
are skipped. -/
theorem applyBody_endpoints (aiOut : AiPlan.AIOutput) (b : BoardTf) (opts : ApplyOpts)
    (s0 : WallState) :
    ((applyBody aiOut b opts s0).edges).map (fun x => (x.«from», x.«to»))
      = (s0.edges.map (fun x => (x.«from», x.«to»)))
        ++ aiOut.workflow_edges.filterMap
            (resolveEdge (applyNotesPhase aiOut b opts s0).2) := by
  unfold applyBody
  dsimp only
  split
  · rename_i hEmpty
    rw [List.isEmpty_iff.mp hEmpty]
    simp [applyNotesPhase_edges]
  · rw [foldl_edgeStep_endpoints, applyNotesPhase_edges]

theorem foldl_laneStep_notes_inv (cfg : ApplyCfg) :
    ∀ (l : List (Nat × String)) (acc : WallState × List (String × Nat)),
      ∀ n ∈ (l.foldl (laneStep cfg) acc).1.notes,
        n ∈ acc.1.notes ∨ (n.votes = 0 ∧ n.quaternion = identQuat) := by
  intro l
  induction l with
  | nil => intro acc n hn; exact Or.inl hn
  | cons li rest ih =>
    intro acc n hn
    rw [List.foldl_cons] at hn
    rcases ih (laneStep cfg acc li) n hn with hmem | hq
    · exact laneStep_notes_inv cfg acc li n hmem
    · exact Or.inr hq

end PlanApply

/-! ## Claim theorems -/

open AiOutputs PlanApply Db

/-! Concrete fixtures used by witnesses and counterexamples. -/

def b0 : BoardTf := ⟨⟨0, 0, 0⟩, identQuat⟩

def taskA : AiPlan.Task := ⟨none, "A", none, none, none, none, none⟩

def taskB : AiPlan.Task := ⟨none, "B", none, none, none, none, none⟩

def planAB : AiPlan.AIOutput := ⟨"", ⟨[taskA, taskB], none⟩, [⟨"A", "B"⟩]⟩

def emptyPlan : AiPlan.AIOutput := ⟨"", ⟨[], none⟩, []⟩

/-- C1 (code bug): the edge `applyPlanToWall` creates for the resolvable,
distinct-endpoint edge `A → B` is stored WITHOUT a top-level
`aiGenerated = true` field: the call `addEdge(boardId, fromId, toId,
\x7b aiGenerated: true \x7d)` puts the flags object into `addEdge`'s 4th
positional parameter `kind` and leaves the 5th (`extra`) parameter — the one
the spread merges into the record — undefined. The claim (and `clearAiEdges`,
which filters on a top-level `aiGenerated === true`) expects `some true`. -/
theorem C1_applied_edge_lacks_aiGenerated_tag :
    ((applyPlanToWall planAB (some b0) noOpts emptyWall).2.edges.map (fun e => e.aiGenerated))
      = [none] ∧
    ((applyPlanToWall planAB (some b0) noOpts emptyWall).2.edges.map (fun e => e.kind))
      = [.flagObj true] := by
  constructor
  · rfl
  · rfl

/-- C2: with an empty (or absent) task list `applyPlanToWall` fails with the
"no tasks" error; with tasks but no board transform it fails with the "board
not placed" error; in both cases the store is returned exactly as it was
(zero notes, zero edges created). -/
theorem C2_apply_preconditions (aiOut : AiPlan.AIOutput) (board : Option BoardTf)
    (opts : ApplyOpts) (s0 : WallState) :
    (aiOut.workplan.tasks = [] →
      applyPlanToWall aiOut board opts s0 = (.error "No tasks to apply.", s0)) ∧
    (aiOut.workplan.tasks ≠ [] → board = none →
      applyPlanToWall aiOut board opts s0 = (.error "Board not placed yet.", s0)) := by
  constructor
  · intro h
    unfold applyPlanToWall
    rw [h]
    rfl
  · intro h hb
    subst hb
    unfold applyPlanToWall
    have hne : aiOut.workplan.tasks.isEmpty = false := by
      cases hT : aiOut.workplan.tasks with
      | nil => exact absurd hT h
      | cons a l => rfl
    rw [hne]
    rfl

/-- Witness for C2 at concrete inputs. -/
theorem C2_apply_preconditions_witness :
    applyPlanToWall emptyPlan (some b0) noOpts emptyWall
      = (.error "No tasks to apply.", emptyWall) ∧
    applyPlanToWall planAB none noOpts emptyWall
      = (.error "Board not placed yet.", emptyWall) :=
  ⟨(C2_apply_preconditions emptyPlan (some b0) noOpts emptyWall).1 rfl,
   (C2_apply_preconditions planAB none noOpts emptyWall).2 (by decide) rfl⟩

/-- C6: under the apply preconditions the call succeeds no matter what the
workflow edges are (unresolvable edges are skipped without error), every edge
it creates has two distinct endpoints (self-loops rejected), the endpoint
pairs of the stored edges are exactly the old ones followed by one pair per
resolvable distinct-endpoint workflow entry in order — so every remaining
(resolvable) edge is still created even when other entries are skipped — and
the created notes do not depend on the workflow edges at all. -/
theorem C6_selfloop_rejection_and_best_effort (aiOut : AiPlan.AIOutput) (b : BoardTf)
    (opts : ApplyOpts) (s0 : WallState) (es : List AiPlan.WorkflowEdge)
    (htasks : aiOut.workplan.tasks ≠ []) :
    (applyPlanToWall aiOut (some b) opts s0).1 = .ok () ∧
    (∀ e ∈ (applyPlanToWall aiOut (some b) opts s0).2.edges,
      e ∈ s0.edges ∨ e.«from» ≠ e.«to») ∧
    (((applyPlanToWall aiOut (some b) opts s0).2.edges).map (fun x => (x.«from», x.«to»))
      = (s0.edges.map (fun x => (x.«from», x.«to»)))
        ++ aiOut.workflow_edges.filterMap
            (resolveEdge (applyNotesPhase aiOut b opts s0).2)) ∧
    (applyPlanToWall { aiOut with workflow_edges := es } (some b) opts s0).1 = .ok () ∧
    (applyPlanToWall { aiOut with workflow_edges := es } (some b) opts s0).2.notes
      = (applyPlanToWall aiOut (some b) opts s0).2.notes := by
  have hne : aiOut.workplan.tasks.isEmpty = false := by
    cases hT : aiOut.workplan.tasks with
    | nil => exact absurd hT htasks
    | cons a l => rfl
  have hne' : ({ aiOut with workflow_edges := es } : AiPlan.AIOutput).workplan.tasks.isEmpty
      = false := hne
  refine ⟨?_, ?_, ?_, ?_, ?_⟩
  · rw [applyPlanToWall_some aiOut b opts s0 hne]
  · intro e he
    rw [applyPlanToWall_some aiOut b opts s0 hne] at he
    unfold applyBody at he
    dsimp only at he
    split at he
    · rw [applyNotesPhase_edges] at he
      exact Or.inl he
    · refine foldl_edgeStep_edges_inv _ _ _
        (fun x => x ∈ s0.edges ∨ x.«from» ≠ x.«to») ?_ ?_ e he
      · intro i f t hft
        exact Or.inr hft
      · intro x hx
        rw [applyNotesPhase_edges] at hx
        exact Or.inl hx
  · rw [applyPlanToWall_some aiOut b opts s0 hne]
    exact applyBody_endpoints aiOut b opts s0
  · rw [applyPlanToWall_some _ b opts s0 hne']
  · rw [applyPlanToWall_some _ b opts s0 hne', applyPlanToWall_some aiOut b opts s0 hne]
    dsimp only
    rw [applyBody_notes, applyBody_notes]
    rfl

/-- Witness fixtures for C6: a plan whose workflow edges mix a self-loop, an
unresolvable edge and a resolvable edge (via the trimmed key), so the
characterization shows the remaining edge still being wired. -/
def planMix : AiPlan.AIOutput :=
  ⟨"", ⟨[taskA, taskB], none⟩, [⟨"A", "A"⟩, ⟨"X", "B"⟩, ⟨" A", "B"⟩]⟩

def c6edge : StoredEdge :=
  ((applyPlanToWall planAB (some b0) noOpts emptyWall).2.edges).headD ⟨0, 0, 0, .kindStr "", none⟩

theorem C6_selfloop_rejection_and_best_effort_witness :
    (applyPlanToWall planMix (some b0) noOpts emptyWall).1 = .ok () ∧
    (c6edge ∈ emptyWall.edges ∨ c6edge.«from» ≠ c6edge.«to») ∧
    (((applyPlanToWall planMix (some b0) noOpts emptyWall).2.edges).map
        (fun x => (x.«from», x.«to»))
      = (emptyWall.edges.map (fun x => (x.«from», x.«to»)))
        ++ planMix.workflow_edges.filterMap
            (resolveEdge (applyNotesPhase planMix b0 noOpts emptyWall).2)) ∧
    planMix.workflow_edges.filterMap
        (resolveEdge (applyNotesPhase planMix b0 noOpts emptyWall).2) = [(1, 2)] ∧
    (applyPlanToWall { planAB with workflow_edges := [⟨"X", "Y"⟩] } (some b0) noOpts
      emptyWall).2.notes = (applyPlanToWall planAB (some b0) noOpts emptyWall).2.notes :=
  ⟨(C6_selfloop_rejection_and_best_effort planMix b0 noOpts emptyWall [] (by decide)).1,
   (C6_selfloop_rejection_and_best_effort planAB b0 noOpts emptyWall [] (by decide)).2.1
     c6edge (by decide),
   (C6_selfloop_rejection_and_best_effort planMix b0 noOpts emptyWall [] (by decide)).2.2.1,
   by decide,
   (C6_selfloop_rejection_and_best_effort planAB b0 noOpts emptyWall [⟨"X", "Y"⟩]
     (by decide)).2.2.2.2⟩

/-- C10: every note `applyPlanToWall` stores — lane headers and task notes
alike, under any board transform — carries `votes = 0` and the identity
orientation quaternion `(0,0,0,1)`; only the position is taken through the
board rotation. -/
theorem C10_notes_votes_and_orientation (aiOut : AiPlan.AIOutput) (board : Option BoardTf)
    (opts : ApplyOpts) (s0 : WallState) :
    ∀ n ∈ (applyPlanToWall aiOut board opts s0).2.notes,
      n ∈ s0.notes ∨ (n.votes = 0 ∧ n.quaternion = identQuat) := by
  intro n hn
  unfold applyPlanToWall at hn
  split at hn
  · exact Or.inl hn
  · cases board with
    | none => exact Or.inl hn
    | some b =>
      dsimp only at hn
      rw [applyBody_notes] at hn
      exact foldl_laneStep_notes_inv (applyCfg aiOut b opts) _ _ n hn

theorem headD_mem {α : Type} (l : List α) (d : α) (h : l ≠ []) : l.headD d ∈ l := by
  cases l with
  | nil => exact absurd rfl h
  | cons a t => simp [List.headD]

/-- Witness for C10: the first note of a concrete run (a lane header) has zero
votes and identity orientation. -/
def c10note : StoredNote :=
  ((applyPlanToWall planAB (some b0) noOpts emptyWall).2.notes).headD
    ⟨0, "", "", ⟨0, 0, 0⟩, ⟨1, 0, 0, 0⟩, 0, 1, false⟩

theorem C10_notes_votes_and_orientation_witness :
    c10note ∈ (applyPlanToWall planAB (some b0) noOpts emptyWall).2.notes ∧
    (c10note ∈ emptyWall.notes ∨ (c10note.votes = 0 ∧ c10note.quaternion = identQuat)) :=
  ⟨headD_mem _ _ (by decide),
   C10_notes_votes_and_orientation planAB (some b0) noOpts emptyWall c10note
     (headD_mem _ _ (by decide))⟩

/-- C5 (counterexample): `derive("This is a P0 blocker: fix the crash.", 8)`
does NOT yield a single task — the sentence fails the actionability filter, so
no task at all is derived. -/
theorem C5_p0_blocker_counterexample :
    (deriveTasksFromTranscript "This is a P0 blocker: fix the crash." 8).length ≠ 1 := by
  decide

/-- C5 (amended): on that input `derive` yields no tasks, because the line
does not begin with a whitelisted imperative verb, holds no sequencing
connective and no bullet, and lacks the words "task"/"step". -/
theorem C5_p0_blocker_derives_nothing :
    deriveTasksFromTranscript "This is a P0 blocker: fix the crash." 8 = [] ∧
    looksActionable "This is a P0 blocker: fix the crash." = false := by
  constructor
  · decide
  · decide

/-- C7 (counterexample): with `maxTasks = 0` the selection loop pushes a task
before checking the bound, so the bound `length ≤ maxTasks` fails. -/
theorem C7_derive_bound_counterexample :
    ¬ ((deriveTasksFromTranscript "Build the login page." 0).length ≤ 0) := by
  decide

/-- C7 (amended): for every transcript and every bound `maxTasks ≥ 1`, the
deriver returns at most `maxTasks` tasks, and returns `[]` on input that trims
to empty (totality of the embedding carries the never-throws part). -/
theorem C7_derive_bounded (text : String) (max : Nat) (hmax : 1 ≤ max) :
    (deriveTasksFromTranscript text max).length ≤ max ∧
    (jsTrim text = "" → deriveTasksFromTranscript text max = []) := by
  constructor
  · unfold deriveTasksFromTranscript
    split
    · simp
    · rw [length_sortByPrio]
      refine deriveLoop_length_le max _ [] [] 0 ?_
      simpa using hmax
  · intro h
    simp [deriveTasksFromTranscript, h]

theorem C7_derive_bounded_witness :
    (deriveTasksFromTranscript "Build the login page. Then fix the API bug." 8).length ≤ 8 ∧
    (jsTrim "Build the login page. Then fix the API bug." = "" →
      deriveTasksFromTranscript "Build the login page. Then fix the API bug." 8 = []) :=
  C7_derive_bounded "Build the login page. Then fix the API bug." 8 (by decide)

/-- C8: the deriver's output is sorted by priority ascending (every adjacent
pair is `≤`), and per priority class the sorted output lists exactly the tasks
the selection loop discovered, in discovery order (stability of the sort). -/
theorem C8_derive_sorted_stable (text : String) (max : Nat) :
    List.Chain' (fun a b => a.prio ≤ b.prio) (deriveTasksFromTranscript text max) ∧
    (jsTrim text ≠ "" → ∀ p : Nat,
      (deriveTasksFromTranscript text max).filter (fun t => t.prio = p)
        = (deriveLoop max (taskCandidates text) [] [] 0).filter (fun t => t.prio = p)) := by
  constructor
  · unfold deriveTasksFromTranscript
    split
    · simp
    · exact (sortByPrio_pairwise _).chain'
  · intro h p
    unfold deriveTasksFromTranscript
    rw [if_neg h]
    exact filter_sortByPrio p _

/-- C3 (counterexample): the Plan Normalizer does NOT map priorities into
\x7bP0,P1,P2\x7d — `normalizeAIOutput` stringifies the priority unchanged, so a
task with priority `"critical"` keeps `"critical"`. -/
def raw3 : JVal :=
  .vObj [("workplan", .vObj [("tasks",
    .vArr [.vObj [("title", .vStr "Fix the crash"), ("priority", .vStr "critical")]])])]

theorem C3_normalizer_passes_priority_through :
    ((normalizeAIOutput raw3).workplan.tasks.map (fun t => t.priority)) = [some "critical"] ∧
    "critical" ∉ (["P0", "P1", "P2"] : List String) := by
  constructor
  · decide
  · decide

theorem geminiPrio_le_two (p : Option PriorityVal) : geminiPrio p ≤ 2 := by
  unfold geminiPrio
  dsimp only
  split
  · omega
  · split
    · omega
    · omega

/-- C3 (amended): the severity-token mapping lives in the Gemini-task
conversion (`geminiTasks` of `AISummary.tsx`), not in `normalizeAIOutput`: it
maps "P0"/"critical"/"blocker"/"must"/0 to priority 0,
"P1"/"important"/"high"/1 to 1, and everything absent or unrecognized to 2, so
every DerivedTask it produces has `prio` in the closed set \x7b0,1,2\x7d. -/
theorem C3_gemini_priority_mapping :
    (∀ (tasks : List GTask), ∀ d ∈ geminiTasks tasks, d.prio ≤ 2) ∧
    (geminiPrio (some (.pstr "P0")) = 0 ∧ geminiPrio (some (.pstr "critical")) = 0 ∧
     geminiPrio (some (.pstr "blocker")) = 0 ∧ geminiPrio (some (.pstr "must")) = 0 ∧
     geminiPrio (some (.pnum 0)) = 0 ∧ geminiPrio (some (.pstr "0")) = 0) ∧
    (geminiPrio (some (.pstr "P1")) = 1 ∧ geminiPrio (some (.pstr "important")) = 1 ∧
     geminiPrio (some (.pstr "high")) = 1 ∧ geminiPrio (some (.pnum 1)) = 1 ∧
     geminiPrio (some (.pstr "1")) = 1) ∧
    (geminiPrio none = 2 ∧ geminiPrio (some (.pstr "unrecognized")) = 2) := by
  refine ⟨?_, by decide, by decide, by decide⟩
  intro tasks d hd
  unfold geminiTasks at hd
  split at hd
  · simp at hd
  · rcases List.mem_map.mp hd with ⟨ti, _, hti⟩
    rw [← hti]
    exact geminiPrio_le_two _

def g0 : GTask := ⟨none, "Fix the crash", some (.pstr "critical"), none⟩

def c3task : DerivedTask := (geminiTasks [g0]).headD ⟨0, "", .Frontend, 2⟩

theorem C3_gemini_priority_mapping_witness :
    c3task ∈ geminiTasks [g0] ∧ c3task.prio ≤ 2 :=
  ⟨headD_mem _ _ (by decide),
   C3_gemini_priority_mapping.1 [g0] c3task (headD_mem _ _ (by decide))⟩

/-- C4: every task surviving the Plan Normalizer has a non-empty title equal
to its own trim (empty-trimming titles are dropped), and every surviving edge
has non-empty trimmed `from` and `to`. -/
theorem C4_normalizer_output_invariant (raw : JVal) :
    (∀ t ∈ (normalizeAIOutput raw).workplan.tasks,
      t.title ≠ "" ∧ jsTrim t.title = t.title) ∧
    (∀ e ∈ (normalizeAIOutput raw).workflow_edges,
      e.«from» ≠ "" ∧ jsTrim e.«from» = e.«from» ∧ e.«to» ≠ "" ∧ jsTrim e.«to» = e.«to») := by
  refine ⟨normalizeAIOutput_task_titles raw, ?_⟩
  intro e he
  obtain ⟨⟨a, b⟩, ⟨c, d⟩⟩ := normalizeAIOutput_edge_endpoints raw e he
  exact ⟨a, b, c, d⟩

def raw4 : JVal :=
  .vObj [("workplan", .vObj [("tasks",
      .vArr [.vObj [("title", .vStr "  A  ")], .vObj [("title", .vStr "   ")]])]),
    ("workflow_edges", .vArr [.vObj [("from", .vStr " x "), ("to", .vStr "y")]])]

def c4task : AITask := ((normalizeAIOutput raw4).workplan.tasks).headD
  ⟨"", none, none, none, none, none⟩

def c4edge : AIWorkflowEdge := ((normalizeAIOutput raw4).workflow_edges).headD ⟨"", "", none⟩

theorem C4_normalizer_output_invariant_witness :
    (c4task.title ≠ "" ∧ jsTrim c4task.title = c4task.title) ∧
    (c4edge.«from» ≠ "" ∧ jsTrim c4edge.«from» = c4edge.«from» ∧
     c4edge.«to» ≠ "" ∧ jsTrim c4edge.«to» = c4edge.«to») :=
  ⟨(C4_normalizer_output_invariant raw4).1 c4task (headD_mem _ _ (by decide)),
   (C4_normalizer_output_invariant raw4).2 c4edge (headD_mem _ _ (by decide))⟩

/-- C9 (counterexample): exact idempotence fails. A raw task field that is
truthy but stringifies to the empty string (here `priority: []`) becomes
`some ""` on the first pass, is serialized as an empty string, and is then
falsy — hence dropped — on the second pass. -/
def raw9 : JVal :=
  .vObj [("workplan", .vObj [("tasks",
    .vArr [.vObj [("title", .vStr "A"), ("priority", .vArr [])]])])]

theorem C9_normalize_not_idempotent :
    normalizeAIOutput (reserializeAIOutput (normalizeAIOutput raw9)) ≠ normalizeAIOutput raw9 := by
  decide

/-- C9 (amended): the Plan Normalizer is idempotent on every output whose
present optional string fields are non-empty: re-normalizing the reserialized
output returns it unchanged. -/
theorem C9_normalize_roundtrip_stability (raw : JVal)
    (htasks : ∀ t ∈ (normalizeAIOutput raw).workplan.tasks,
      t.priority ≠ some "" ∧ t.owner ≠ some "" ∧ t.eta ≠ some "" ∧ t.lane ≠ some "" ∧
        t.id ≠ some "")
    (hedges : ∀ e ∈ (normalizeAIOutput raw).workflow_edges, e.kind ≠ some "") :
    normalizeAIOutput (reserializeAIOutput (normalizeAIOutput raw)) = normalizeAIOutput raw := by
  apply normalizeAIOutput_reserialize
  · intro t ht
    obtain ⟨h1, h2⟩ := normalizeAIOutput_task_titles raw t ht
    obtain ⟨p1, p2, p3, p4, p5⟩ := htasks t ht
    exact ⟨h2, h1, p1, p2, p3, p4, p5⟩
  · intro e he
    obtain ⟨⟨f1, f2⟩, ⟨t1, t2⟩⟩ := normalizeAIOutput_edge_endpoints raw e he
    exact ⟨f2, f1, t2, t1, hedges e he⟩

def rawW : JVal :=
  .vObj [("summary_md", .vStr "## plan"),
    ("workplan", .vObj [("tasks",
      .vArr [.vObj [("title", .vStr "A"), ("priority", .vStr "P0")],
             .vObj [("title", .vStr "B")]])]),
    ("workflow_edges", .vArr [.vObj [("from", .vStr "A"), ("to", .vStr "B"),
      ("kind", .vStr "follows")]])]

theorem C9_normalize_roundtrip_stability_witness :
    normalizeAIOutput (reserializeAIOutput (normalizeAIOutput rawW)) = normalizeAIOutput rawW :=
  C9_normalize_roundtrip_stability rawW (by decide) (by decide)

theorem C8_derive_sorted_stable_witness :
    List.Chain' (fun a b => a.prio ≤ b.prio)
      (deriveTasksFromTranscript "Fix the crash now, then add the p1 panel. Build a demo." 8) ∧
    (deriveTasksFromTranscript "Fix the crash now, then add the p1 panel. Build a demo." 8).filter
        (fun t => t.prio = 2)
      = (deriveLoop 8 (taskCandidates "Fix the crash now, then add the p1 panel. Build a demo.")
          [] [] 0).filter (fun t => t.prio = 2) :=
  ⟨(C8_derive_sorted_stable "Fix the crash now, then add the p1 panel. Build a demo." 8).1,
   (C8_derive_sorted_stable "Fix the crash now, then add the p1 panel. Build a demo." 8).2
     (by decide) 2⟩

end IdeaWall
